import Mathlib

/-!
Verification of the draugr MUD client core against its specification.

The Rust sources are shallowly embedded: `RB` mirrors `RingBuffer<T>`
(src/ring.rs), `InputLine` mirrors the input editor (src/input.rs),
`ScriptEngine` waiter handling mirrors src/script.rs, the telnet actor
step functions mirror src/telnet.rs, and the event router mirrors
`App` in src/main.rs.
-/

namespace Draugr

/-- Embedding of `RingBuffer<T>` (src/ring.rs): a fixed slot vector of
`Option T` plus `front`/`back` cursors. -/
structure RB (T : Type) where
  buffer : List (Option T)
  front : Nat
  back : Nat
deriving Repr, DecidableEq

namespace RB

variable {T : Type} [DecidableEq T]

/-- `RingBuffer::new(capacity)`. -/
def new (T : Type) (capacity : Nat) : RB T :=
  { buffer := List.replicate capacity none, front := 0, back := 0 }

/-- Slot read `self.buffer[(self.front + index) % self.buffer.len()]`
(`RingBuffer::get`). Out-of-bounds physical access (impossible for a
positive capacity) is mapped to a vacant slot. -/
def get (rb : RB T) (index : Nat) : Option T :=
  rb.buffer.getD ((rb.front + index) % rb.buffer.length) none

/-- `RingBuffer::is_full`. -/
def is_full (rb : RB T) : Bool :=
  rb.front == rb.back && (rb.buffer.getD rb.front none).isSome

/-- `RingBuffer::is_empty`. -/
def is_empty (rb : RB T) : Bool :=
  rb.front == rb.back && (rb.buffer.getD rb.front none).isNone

/-- `RingBuffer::size`. -/
def size (rb : RB T) : Nat :=
  if rb.is_full then rb.buffer.length
  else if rb.back ≥ rb.front then rb.back - rb.front
  else rb.buffer.length - rb.front + rb.back

/-- `RingBuffer::push_back`. -/
def push_back (rb : RB T) (value : T) : RB T :=
  let rb' :=
    if rb.is_full then { rb with front := (rb.front + 1) % rb.buffer.length }
    else rb
  { rb' with
    buffer := rb'.buffer.set rb'.back (some value),
    back := (rb'.back + 1) % rb'.buffer.length }

/-- `RingBuffer::find_forwards`: scan logical indices decreasing from
`start_at` toward 0, stopping at the first vacant slot, returning the
first index whose element satisfies `pred`. -/
def find_forwards (rb : RB T) (pred : T → Bool) (start_at : Nat) : Option Nat :=
  match rb.get start_at with
  | none => none
  | some value =>
    if pred value then some start_at
    else if start_at = 0 then none
    else rb.find_forwards pred (start_at - 1)
termination_by start_at
decreasing_by omega

/-- `<[T]>::rotate_left(1)` on a whole slice. -/
def rotl1 : List α → List α
  | [] => []
  | a :: as => as ++ [a]

/-- `self.buffer[s..d].rotate_left(1)`: rotate the sub-range `[s, d)` of
the vector left by one, in place. -/
def rotateRange (l : List α) (s d : Nat) : List α :=
  l.take s ++ rotl1 ((l.drop s).take (d - s)) ++ l.drop d

/-- `self.buffer.swap(i, j)`. -/
def listSwap (l : List α) (i j : Nat) : List α :=
  match l.get? i, l.get? j with
  | some a, some b => (l.set i b).set j a
  | _, _ => l

/-- `RingBuffer::find_and_push_back`: dedup-promote. -/
def find_and_push_back (rb : RB T) (value : T) : RB T :=
  if rb.is_empty then rb.push_back value
  else
    match rb.find_forwards (fun x => x == value) (rb.size - 1) with
    | some index =>
      let dst := if rb.back = 0 then rb.buffer.length else rb.back
      let src := (rb.front + index) % rb.buffer.length
      if src = dst - 1 then rb
      else if src < dst then
        { rb with buffer := rotateRange rb.buffer src dst }
      else
        let cap := rb.buffer.length
        let b1 := rotateRange rb.buffer src cap
        let b2 := rotateRange b1 0 dst
        { rb with buffer := listSwap b2 (cap - 1) (dst - 1) }
    | none => rb.push_back value

end RB

/-- Abstraction relation: `rb` is a well-formed ring buffer whose logical
content, oldest first, is `l`. Slot `(front + i) % capacity` holds `l[i]`
for `i < l.length` and is vacant for `l.length ≤ i < capacity`. -/
def ReprRB {T : Type} (rb : RB T) (l : List T) : Prop :=
  0 < rb.buffer.length ∧
  rb.front < rb.buffer.length ∧
  l.length ≤ rb.buffer.length ∧
  rb.back = (rb.front + l.length) % rb.buffer.length ∧
  ∀ i, i < rb.buffer.length →
    rb.buffer[(rb.front + i) % rb.buffer.length]? = some l[i]?

instance {T : Type} [DecidableEq T] (rb : RB T) (l : List T) :
    Decidable (ReprRB rb l) := by
  unfold ReprRB; infer_instance

/-- Specification-level mirror of `find_forwards` on the logical list:
walk indices from `s` down toward 0, returning the first (i.e. greatest)
index whose element satisfies `pred`. -/
def listFindRev {T : Type} (l : List T) (pred : T → Bool) (s : Nat) : Option Nat :=
  match l[s]? with
  | none => none
  | some a =>
    if pred a then some s
    else if s = 0 then none
    else listFindRev l pred (s - 1)
termination_by s
decreasing_by omega

/-- A fresh buffer of capacity `c` filled by a sequence of `push_back`
calls, one per element of `vs`, oldest first. -/
def pushAll (T : Type) (c : Nat) (vs : List T) : RB T :=
  vs.foldl (fun rb v => rb.push_back v) (RB.new T c)

/-- Specification-level model of the same sequence of pushes: append,
dropping the oldest element when the buffer is at capacity. -/
def pushModel {T : Type} (c : Nat) (vs : List T) : List T :=
  vs.foldl (fun l v => if l.length = c then l.tail ++ [v] else l ++ [v]) []

/-- `InputState` (src/input.rs). -/
inductive InputState where
  | Typing (buffer : String) (cursor_position : Nat)
  | HistorySearch (search_term : String) (index : Nat)
deriving Repr, DecidableEq

/-- `InputState::empty_typing`. -/
def InputState.empty_typing : InputState := .Typing "" 0

/-- `InputLine` (src/input.rs): the editor state plus its command history
(`RingBuffer::new(1000)` in `InputLine::new`). -/
structure InputLine where
  state : InputState
  history : RB String
deriving Repr, DecidableEq

namespace InputLine

/-- `InputLine::new`. -/
def new : InputLine :=
  { state := InputState.empty_typing, history := RB.new String 1000 }

/-- `InputLine::get_and_clear`: result paired with the successor state. -/
def get_and_clear (il : InputLine) : String × InputLine :=
  match il.state with
  | .Typing buffer _ => (buffer, { il with state := InputState.empty_typing })
  | .HistorySearch term _ => (term, { il with state := InputState.empty_typing })

/-- `InputLine::cursor_position`. The Rust source uses `str::len()` — the
UTF-8 byte count — in the empty-search-term branch, and `chars().count()`
— the character count — in the non-empty branch; `String.utf8ByteSize`
and `String.length` embed the two respectively. -/
def cursor_position (il : InputLine) : Nat :=
  match il.state with
  | .Typing _ cursor_position => cursor_position
  | .HistorySearch search_term index =>
    if search_term = "" then ((il.history.get index).getD "").utf8ByteSize
    else search_term.length

/-- `InputLine::as_line`, reduced to its text content: the pair of the
white input segment and the cyan completion segment. The byte slice
`&history_entry[search_term.len()..]` is embedded as a character-level
drop, which agrees with it whenever the entry extends the typed term. -/
def as_line (il : InputLine) : String × String :=
  match il.state with
  | .Typing buffer _ => (buffer, "")
  | .HistorySearch search_term index =>
    let history_entry := (il.history.get index).getD ""
    if search_term = "" then (history_entry, "")
    else (search_term, history_entry.drop search_term.length)

end InputLine

/-- `Constraint` (ratatui sizing constraint, as parsed in
src/tui/layout.rs `create_constraint`). -/
inductive Constraint where
  | Max (v : Nat)
  | Min (v : Nat)
  | Percentage (v : Nat)
deriving Repr, DecidableEq

/-- `LayoutPane` (src/tui/layout.rs); the scroll pane's buffer state is
presentation-layer data and is not modelled. -/
inductive LayoutPane where
  | ScrollPane (id : Option Nat)
  | InputPane
deriving Repr, DecidableEq

/-- `LayoutElement` (src/tui/layout.rs). -/
inductive LayoutElement where
  | VerticalStack (children : List LayoutElement) (constraints : List Constraint)
  | HorizontalStack (children : List LayoutElement) (constraints : List Constraint)
  | Pane (pane : LayoutPane)

mutual

/-- `LayoutElement::pane`: depth-first search for the scroll pane with the
given numeric id (`find_map` over children). -/
def LayoutElement.pane : LayoutElement → Nat → Option LayoutPane
  | .HorizontalStack children _, pane_id => panesFindMap children pane_id
  | .VerticalStack children _, pane_id => panesFindMap children pane_id
  | .Pane (.ScrollPane (some id)), pane_id =>
    if pane_id = id then some (.ScrollPane (some id)) else none
  | _, _ => none

/-- `children.iter_mut().find_map(|child| child.pane(pane_id))`. -/
def panesFindMap : List LayoutElement → Nat → Option LayoutPane
  | [], _ => none
  | c :: cs, pane_id =>
    match c.pane pane_id with
    | some p => some p
    | none => panesFindMap cs pane_id

end

mutual

/-- `LayoutElement::input`: depth-first search for the first input pane. -/
def LayoutElement.input : LayoutElement → Option Unit
  | .HorizontalStack children _ => inputsFindMap children
  | .VerticalStack children _ => inputsFindMap children
  | .Pane .InputPane => some ()
  | _ => none

/-- `children.iter_mut().find_map(|child| child.input())`. -/
def inputsFindMap : List LayoutElement → Option Unit
  | [] => none
  | c :: cs =>
    match c.input with
    | some p => some p
    | none => inputsFindMap cs

end

mutual

/-- Specification-side count of input panes in a layout. -/
def LayoutElement.inputCount : LayoutElement → Nat
  | .HorizontalStack children _ => inputsCount children
  | .VerticalStack children _ => inputsCount children
  | .Pane .InputPane => 1
  | _ => 0

/-- Specification-side count of input panes in a forest. -/
def inputsCount : List LayoutElement → Nat
  | [] => 0
  | c :: cs => c.inputCount + inputsCount cs

end

mutual

/-- Specification-side: does the layout contain a scroll pane carrying the
given numeric id? -/
def LayoutElement.hasScroll : LayoutElement → Nat → Bool
  | .HorizontalStack children _, pane_id => hasScrollAny children pane_id
  | .VerticalStack children _, pane_id => hasScrollAny children pane_id
  | .Pane (.ScrollPane (some id)), pane_id => pane_id == id
  | _, _ => false

/-- Specification-side: does any layout in the forest contain a scroll
pane carrying the given numeric id? -/
def hasScrollAny : List LayoutElement → Nat → Bool
  | [], _ => false
  | c :: cs, pane_id => c.hasScroll pane_id || hasScrollAny cs pane_id

end

/-- `ScriptEngineEvent` (src/script.rs); the `anyhow::Error` payload is
embedded as its message string. -/
inductive ScriptEngineEvent where
  | Connect (address : String) (port : Nat)
  | Send (data : String)
  | SendSecret (data : String)
  | SetLayout (layout : LayoutElement)
  | Error (msg : String)

/-- The `set_layout` capability registered in
`ScriptEngine::execute_script` (src/script.rs), after a successful parse
of the raw map: validate the layout, rejecting it without emitting
anything when it lacks an input pane or the default pane with id 1,
otherwise emit the `SetLayout` event. -/
def set_layout (layout : LayoutElement) : Except String (List ScriptEngineEvent) :=
  if (layout.input).isNone then
    Except.error "Layout must include an input"
  else if (layout.pane 1).isNone then
    Except.error "Layout must include default pane (id = 1)"
  else
    Except.ok [ScriptEngineEvent.SetLayout layout]

/-- A pending `expect` waiter (src/script.rs `ScriptEngine::expects`): the
compiled regex, abstracted as its match predicate, and the identity of its
oneshot reply channel. -/
structure Waiter where
  pattern : String → Bool
  id : Nat

/-- `Vec::remove(idx)`: returns the removed element and the shifted
remainder; `none` models the panic when `idx` is out of bounds. -/
def vecRemove {α : Type} (l : List α) (idx : Nat) : Option (α × List α) :=
  if h : idx < l.length then some (l.get ⟨idx, h⟩, l.eraseIdx idx) else none

/-- `ScriptEngine::handle_request` for `Output(data)`: collect the indices
of all waiters whose pattern matches, then `remove` each collected index
in turn, sending the line to each removed waiter. Returns the remaining
waiters and the ids resolved with the line, in resolution order; `none`
models an out-of-bounds `remove` panic. -/
def handleOutput (expects : List Waiter) (data : String) :
    Option (List Waiter × List Nat) :=
  let matchIdxs := (expects.enum.filter (fun p => p.2.pattern data)).map (fun p => p.1)
  matchIdxs.foldl
    (fun acc idx =>
      match acc with
      | none => none
      | some (rem, resolved) =>
        match vecRemove rem idx with
        | none => none
        | some (w, rem') => some (rem', resolved ++ [w.id]))
    (some (expects, []))

/-- `TelnetRequest` (src/telnet.rs). -/
inductive TelnetRequest where
  | Connect (address : String) (port : Nat)
  | Send (data : String)
  | Disconnect
  | Shutdown
deriving Repr, DecidableEq

/-- `TelnetEvent` (src/telnet.rs); `Unhandled` drops the raw event payload
and `Error` carries the error's context message. -/
inductive TelnetEvent where
  | Data (s : String)
  | Unhandled
  | Info (s : String)
  | Warning (s : String)
  | Error (context : String)
deriving Repr, DecidableEq

/-- Outcome of one `telnet.read_timeout(...)` call plus UTF-8 decoding, as
consumed by `TelnetConnection::handle_telnet_recv_impl`. -/
inductive ReadResult where
  | ioError
  | timedOut
  | dataOk (s : String)
  | dataBad
  | goAhead
  | negWillCompress (writeOk : Bool)
  | negOther
  | subnegCompress
  | subnegOther
  | other
deriving Repr, DecidableEq

/-- `TelnetConnection::handle_telnet_recv_impl`: the events sent over the
channel before returning, and the error context when the call fails. The
socket is `some handle` when connected, `none` when disconnected. -/
def handle_telnet_recv_impl (sock : Option Nat) (res : ReadResult) :
    List TelnetEvent × Option String :=
  match sock with
  | none => ([], none)
  | some _ =>
    match res with
    | .ioError => ([], some "Read from socket")
    | .timedOut => ([], none)
    | .dataOk s => ([.Data s], none)
    | .dataBad => ([], some "Decode data to UTF-8 string")
    | .goAhead => ([], none)
    | .negWillCompress writeOk =>
      if writeOk then ([.Info "Server supports MCCP2"], none)
      else ([.Info "Server supports MCCP2"], some "Negotiate MCCP2")
    | .negOther => ([], none)
    | .subnegCompress => ([.Info "MCCP2 enabled"], none)
    | .subnegOther => ([], none)
    | .other => ([.Unhandled], none)

/-- `TelnetConnection::handle_telnet_recv`: on an impl error, send the
error event, then reset the connection (drop the socket and send the
"Disconnected." warning); the actor loop always continues. -/
def handle_telnet_recv (sock : Option Nat) (res : ReadResult) :
    Option Nat × List TelnetEvent :=
  match handle_telnet_recv_impl sock res with
  | (evs, none) => (sock, evs)
  | (evs, some err) =>
    (none, evs ++ [TelnetEvent.Error err, TelnetEvent.Warning "Disconnected."])

/-- The observable outcome of one `handle_request` step: successor socket,
bytes written to the socket, events sent, and whether the loop breaks. -/
structure RequestOutcome where
  sock : Option Nat
  writes : List String
  events : List TelnetEvent
  shutdown : Bool
deriving Repr, DecidableEq

/-- `TelnetConnection::handle_request_impl`; `req = none` models an empty
`try_recv`, and `connectResult` abstracts `telnet::Telnet::connect`
(`some s`: a fresh socket handle, `none`: connection failure, in which
case `self.telnet` keeps its previous value because `?` returns before
the assignment). -/
def handle_request_impl (sock : Option Nat) (req : Option TelnetRequest)
    (connectResult : Option Nat) : RequestOutcome × Option String :=
  match req with
  | none => (⟨sock, [], [], false⟩, none)
  | some (.Connect address port) =>
    let ev1 := TelnetEvent.Info ("Connecting to " ++ address ++ ":" ++ toString port ++ "...")
    match connectResult with
    | some s => (⟨some s, [], [ev1, TelnetEvent.Info "Connected."], false⟩, none)
    | none => (⟨sock, [], [ev1], false⟩, some "Connect to server")
  | some (.Send data) =>
    match sock with
    | some s => (⟨some s, [data, "\n"], [], false⟩, none)
    | none => (⟨none, [], [], false⟩, some "Connection is closed")
  | some .Disconnect =>
    match sock with
    | some s => (⟨some s, [], [], true⟩, none)
    | none => (⟨none, [], [], false⟩, some "Connection is closed")
  | some .Shutdown => (⟨sock, [], [], true⟩, none)

/-- `TelnetConnection::handle_request`: an impl error becomes an error
event and the loop continues. -/
def handle_request (sock : Option Nat) (req : Option TelnetRequest)
    (connectResult : Option Nat) : RequestOutcome :=
  match handle_request_impl sock req connectResult with
  | (out, none) => out
  | (out, some err) =>
    { out with events := out.events ++ [TelnetEvent.Error err], shutdown := false }

/-- `ScriptEngineRequest` (src/script.rs). -/
inductive ScriptEngineRequest where
  | Output (data : String)
  | ExecuteScriptFile (path : String)
  | Shutdown
deriving Repr, DecidableEq

/-- `TuiRequest` (src/tui.rs). -/
inductive TuiRequest where
  | Print (data : String) (pane : Nat)
  | PrintUserInput (data : String) (pane : Nat)
  | PrintInfo (data : String) (pane : Nat)
  | PrintWarning (data : String) (pane : Nat)
  | PrintError (data : String) (pane : Nat)
  | SetLayout (layout : LayoutElement)

/-- `TuiEvent` (src/tui.rs). -/
inductive TuiEvent where
  | Send (data : String)
  | SendSecret (data : String)
  | Quit
deriving Repr, DecidableEq

/-- The requests issued by one `App::handle_tui_event` call, plus whether
the router loop exits (`Ok(true)`). -/
structure TuiOutcome where
  telnet : List TelnetRequest
  tui : List TuiRequest
  script : List ScriptEngineRequest
  quit : Bool

/-- `App::handle_tui_event` (src/main.rs). -/
def handle_tui_event (event : TuiEvent) : TuiOutcome :=
  match event with
  | .Send data => ⟨[TelnetRequest.Send data], [], [], false⟩
  | .SendSecret data =>
    ⟨[TelnetRequest.Send data], [TuiRequest.PrintUserInput "*****" 1], [], false⟩
  | .Quit =>
    ⟨[TelnetRequest.Shutdown], [], [ScriptEngineRequest.Shutdown], true⟩

/-- `App::handle_script_event` (src/main.rs): the telnet requests and
presentation requests issued for one automation event. -/
def handle_script_event (event : ScriptEngineEvent) :
    List TelnetRequest × List TuiRequest :=
  match event with
  | .Connect address port => ([TelnetRequest.Connect address port], [])
  | .Send data =>
    ([TelnetRequest.Send data], [TuiRequest.PrintUserInput data 1])
  | .SendSecret data =>
    ([TelnetRequest.Send data], [TuiRequest.PrintUserInput "*****" 1])
  | .SetLayout layout => ([], [TuiRequest.SetLayout layout])
  | .Error msg =>
    ([], [TuiRequest.PrintError ("Script error: " ++ msg) 1])

/-- The text payload of a presentation request, for stating what the
presentation layer is ever shown. -/
def TuiRequest.text : TuiRequest → String
  | .Print data _ => data
  | .PrintUserInput data _ => data
  | .PrintInfo data _ => data
  | .PrintWarning data _ => data
  | .PrintError data _ => data
  | .SetLayout _ => ""

namespace RB

variable {T : Type} [DecidableEq T]

theorem mod_two_cases (a c : Nat) (hc : 0 < c) (h : a < 2 * c) :
    a % c = if a < c then a else a - c := by
  split
  · exact Nat.mod_eq_of_lt (by omega)
  · rw [Nat.mod_eq_sub_mod (by omega)]
    exact Nat.mod_eq_of_lt (by omega)

theorem phys_inj {cap F i j : Nat} (hF : F < cap) (hi : i < cap) (hj : j < cap)
    (h : (F + i) % cap = (F + j) % cap) : i = j := by
  rw [mod_two_cases (F + i) cap (by omega) (by omega),
    mod_two_cases (F + j) cap (by omega) (by omega)] at h
  split at h <;> split at h <;> omega

omit [DecidableEq T] in
theorem repr_get {rb : RB T} {l : List T} (h : ReprRB rb l) {i : Nat}
    (hi : i < rb.buffer.length) : rb.get i = l[i]? := by
  obtain ⟨hc, hF, hl, hb, hs⟩ := h
  have := hs i hi
  simp only [RB.get, List.getD_eq_getElem?_getD, this, Option.getD_some]

omit [DecidableEq T] in
theorem repr_is_full {rb : RB T} {l : List T} (h : ReprRB rb l) :
    rb.is_full = true ↔ l.length = rb.buffer.length := by
  obtain ⟨hc, hF, hl, hb, hs⟩ := h
  have h0 := hs 0 hc
  rw [Nat.add_zero, Nat.mod_eq_of_lt hF] at h0
  rw [mod_two_cases (rb.front + l.length) rb.buffer.length (by omega) (by omega)] at hb
  rw [RB.is_full, Bool.and_eq_true, beq_iff_eq, List.getD_eq_getElem?_getD, h0,
    Option.getD_some]
  constructor
  · rintro ⟨hfb, hsome⟩
    by_contra hne
    have hzero : l.length = 0 := by split at hb <;> omega
    rw [List.getElem?_eq_none (by omega)] at hsome
    simp at hsome
  · intro hlen
    refine ⟨by split at hb <;> omega, ?_⟩
    rw [List.getElem?_eq_getElem (by omega)]
    rfl

omit [DecidableEq T] in
theorem repr_is_empty {rb : RB T} {l : List T} (h : ReprRB rb l) :
    rb.is_empty = true ↔ l.length = 0 := by
  obtain ⟨hc, hF, hl, hb, hs⟩ := h
  have h0 := hs 0 hc
  rw [Nat.add_zero, Nat.mod_eq_of_lt hF] at h0
  rw [mod_two_cases (rb.front + l.length) rb.buffer.length (by omega) (by omega)] at hb
  rw [RB.is_empty, Bool.and_eq_true, beq_iff_eq, List.getD_eq_getElem?_getD, h0,
    Option.getD_some]
  constructor
  · rintro ⟨hfb, hnone⟩
    by_contra hne
    rw [List.getElem?_eq_getElem (by omega)] at hnone
    simp at hnone
  · intro hlen
    refine ⟨by split at hb <;> omega, ?_⟩
    rw [List.getElem?_eq_none (by omega)]
    rfl

omit [DecidableEq T] in
theorem repr_size {rb : RB T} {l : List T} (h : ReprRB rb l) :
    rb.size = l.length := by
  have hfull := repr_is_full h
  obtain ⟨hc, hF, hl, hb, hs⟩ := h
  rw [mod_two_cases (rb.front + l.length) rb.buffer.length (by omega) (by omega)] at hb
  by_cases hf : rb.is_full = true
  · rw [RB.size, if_pos hf, hfull.mp hf]
  · rw [RB.size, if_neg hf]
    have hlen : l.length ≠ rb.buffer.length := fun he => hf (hfull.mpr he)
    split at hb
    · rw [if_pos (by omega)]
      omega
    · rw [if_neg (by omega)]
      omega

omit [DecidableEq T] in
/-- `push_back` appends at the newest position; when the buffer is full it
first evicts exactly the oldest element. -/
theorem repr_push_back {rb : RB T} {l : List T} (h : ReprRB rb l) (v : T) :
    ReprRB (rb.push_back v)
      (if l.length = rb.buffer.length then l.tail ++ [v] else l ++ [v]) := by
  have hfull := repr_is_full h
  obtain ⟨hc, hF, hl, hb, hs⟩ := h
  by_cases hf : rb.is_full = true
  · have hlen : l.length = rb.buffer.length := hfull.mp hf
    rw [if_pos hlen]
    have hBF : rb.back = rb.front := by
      rw [hb, hlen, Nat.add_mod_right, Nat.mod_eq_of_lt hF]
    rw [RB.push_back, if_pos hf]
    simp only
    refine ⟨by simpa using hc, ?_, ?_, ?_, ?_⟩
    · simpa using Nat.mod_lt _ (by omega)
    · simp only [List.length_set, List.length_append, List.length_tail,
        List.length_singleton]
      omega
    · simp only [List.length_set, List.length_append, List.length_tail,
        List.length_singleton, hBF]
      have h1 : l.length - 1 + 1 = rb.buffer.length := by omega
      rw [h1, Nat.add_mod_right, Nat.mod_mod_of_dvd _ dvd_rfl]
    · intro i hi
      simp only [List.length_set] at hi ⊢
      rw [Nat.mod_add_mod]
      by_cases hip : i < rb.buffer.length - 1
      · have hne : rb.back ≠ (rb.front + 1 + i) % rb.buffer.length := by
          rw [hBF]
          intro hcon
          have : (rb.front + 0) % rb.buffer.length =
              (rb.front + (i + 1)) % rb.buffer.length := by
            rw [Nat.add_zero, Nat.mod_eq_of_lt hF, hcon]
            congr 1
            omega
          have := phys_inj hF (by omega) (by omega) this
          omega
        rw [List.getElem?_set_ne hne]
        have := hs (i + 1) (by omega)
        rw [show rb.front + 1 + i = rb.front + (i + 1) by omega, this]
        rw [List.getElem?_append_left (by simp [List.length_tail]; omega),
          List.getElem?_tail]
      · have hieq : i = rb.buffer.length - 1 := by omega
        have hphys : (rb.front + 1 + i) % rb.buffer.length = rb.back := by
          rw [hBF, hieq, show rb.front + 1 + (rb.buffer.length - 1) =
            rb.front + rb.buffer.length by omega, Nat.add_mod_right,
            Nat.mod_eq_of_lt hF]
        rw [hphys, List.getElem?_set, if_pos rfl, if_pos (by rw [hBF]; omega)]
        rw [List.getElem?_append_right (by simp [List.length_tail]; omega)]
        have h2 : i - l.tail.length = 0 := by
          simp only [List.length_tail]
          omega
        rw [h2]
        simp
  · have hlen : l.length ≠ rb.buffer.length := fun he => hf (hfull.mpr he)
    rw [if_neg hlen]
    rw [RB.push_back, if_neg hf]
    have hBlt : rb.back < rb.buffer.length := by rw [hb]; exact Nat.mod_lt _ (by omega)
    refine ⟨by simpa using hc, by simpa using hF, ?_, ?_, ?_⟩
    · simp only [List.length_set, List.length_append, List.length_singleton]
      omega
    · simp only [List.length_set, List.length_append, List.length_singleton, hb,
        Nat.mod_add_mod]
      rw [Nat.add_assoc]
    · intro i hi
      simp only [List.length_set] at hi ⊢
      by_cases hil : i = l.length
      · have hphys : (rb.front + i) % rb.buffer.length = rb.back := by
          rw [hb, hil]
        rw [hphys, List.getElem?_set, if_pos rfl, if_pos hBlt]
        rw [hil, List.getElem?_append_right (Nat.le_refl _)]
        simp
      · have hne : rb.back ≠ (rb.front + i) % rb.buffer.length := by
          rw [hb]
          intro hcon
          exact hil (phys_inj hF hi (by omega) hcon.symm)
        rw [List.getElem?_set_ne hne, hs i hi]
        by_cases hilt : i < l.length
        · rw [List.getElem?_append_left hilt]
        · rw [List.getElem?_eq_none (by omega),
            List.getElem?_eq_none (by simp; omega)]

end RB

namespace RB

variable {T : Type} [DecidableEq T]

omit [DecidableEq T] in
theorem find_forwards_eq {rb : RB T} {l : List T} (h : ReprRB rb l)
    (pred : T → Bool) :
    ∀ s, s < l.length → rb.find_forwards pred s = listFindRev l pred s := by
  intro s
  induction s using Nat.strong_induction_on with
  | _ s ih =>
    intro hs
    have hcap : s < rb.buffer.length := by
      have := h.2.2.1
      omega
    have hget : rb.get s = l[s]? := repr_get h hcap
    rw [RB.find_forwards, listFindRev, hget]
    cases hx : l[s]? with
    | none => rfl
    | some a =>
      simp only
      by_cases hp : pred a
      · simp [hp]
      · simp only [hp, if_false]
        by_cases h0 : s = 0
        · simp [h0]
        · simp only [h0, if_false]
          exact ih (s - 1) (by omega) (by omega)

end RB

namespace RB

theorem rotl1_length {α : Type} (m : List α) : (rotl1 m).length = m.length := by
  cases m <;> simp [rotl1]

theorem rotl1_getElem? {α : Type} {m : List α} {q : Nat} (hq : q < m.length) :
    (rotl1 m)[q]? = if q = m.length - 1 then m[0]? else m[q + 1]? := by
  cases m with
  | nil => simp at hq
  | cons a as =>
    rw [rotl1]
    by_cases hq1 : q < as.length
    · rw [List.getElem?_append_left hq1, if_neg (by simp; omega)]
      simp
    · have hqe : q = as.length := by simp at hq; omega
      subst hqe
      rw [List.getElem?_append_right (le_refl _), if_pos (by simp)]
      simp

theorem rotateRange_length {α : Type} {l : List α} {s d : Nat} (hsd : s ≤ d)
    (hd : d ≤ l.length) : (rotateRange l s d).length = l.length := by
  simp only [rotateRange, List.length_append, List.length_take, List.length_drop,
    rotl1_length]
  omega

theorem rotateRange_getElem? {α : Type} {l : List α} {s d : Nat} (hsd : s < d)
    (hd : d ≤ l.length) (p : Nat) :
    (rotateRange l s d)[p]? =
      if p < s then l[p]?
      else if p = d - 1 then l[s]?
      else if p < d then l[p + 1]?
      else l[p]? := by
  have hm : ((l.drop s).take (d - s)).length = d - s := by
    simp only [List.length_take, List.length_drop]
    omega
  have hlft : (l.take s ++ rotl1 ((l.drop s).take (d - s))).length = d := by
    simp only [List.length_append, List.length_take, rotl1_length, List.length_drop]
    omega
  rw [rotateRange]
  by_cases h1 : p < d
  · rw [List.getElem?_append_left (by omega)]
    by_cases h2 : p < s
    · rw [List.getElem?_append_left (by simp; omega), if_pos h2]
      rw [List.getElem?_take_of_lt h2]
    · rw [List.getElem?_append_right (by simp; omega), if_neg h2]
      have hplen : p - (l.take s).length = p - s := by simp; omega
      rw [hplen, rotl1_getElem? (by omega)]
      by_cases h3 : p = d - 1
      · rw [if_pos (by omega), if_pos h3]
        rw [List.getElem?_take_of_lt (by omega), List.getElem?_drop]
        rw [Nat.add_zero]
      · rw [if_neg (by omega), if_neg h3, if_pos h1]
        rw [List.getElem?_take_of_lt (by omega), List.getElem?_drop]
        congr 1
        omega
  · rw [List.getElem?_append_right (by omega), if_neg (by omega), if_neg (by omega),
      if_neg h1, hlft, List.getElem?_drop]
    congr 1
    omega

theorem listSwap_length {α : Type} (l : List α) (i j : Nat) :
    (listSwap l i j).length = l.length := by
  rw [listSwap]
  cases l.get? i <;> cases l.get? j <;> simp

theorem listSwap_getElem? {α : Type} {l : List α} {i j : Nat} (hi : i < l.length)
    (hj : j < l.length) (hij : i ≠ j) (p : Nat) :
    (listSwap l i j)[p]? =
      if p = i then l[j]? else if p = j then l[i]? else l[p]? := by
  have hgi : l.get? i = some l[i] := by
    rw [List.get?_eq_getElem?]
    exact List.getElem?_eq_getElem hi
  have hgj : l.get? j = some l[j] := by
    rw [List.get?_eq_getElem?]
    exact List.getElem?_eq_getElem hj
  rw [listSwap, hgi, hgj]
  simp only
  rw [List.getElem?_set, List.getElem?_set]
  by_cases hpj : p = j
  · subst hpj
    rw [if_pos rfl, if_pos (by simp; omega), if_neg hij.symm, if_pos rfl]
    exact (List.getElem?_eq_getElem hi).symm
  · rw [if_neg (fun hh => hpj hh.symm)]
    by_cases hpi : p = i
    · subst hpi
      rw [if_pos rfl, if_pos hi, if_pos rfl, List.getElem?_eq_getElem hj]
    · rw [if_neg (fun hh => hpi hh.symm), if_neg hpi, if_neg hpj]

end RB

theorem promote_length {T : Type} {l : List T} {i : Nat} (hi : i < l.length) (v : T) :
    (l.eraseIdx i ++ [v]).length = l.length := by
  simp only [List.length_append, List.length_eraseIdx, List.length_singleton]
  rw [if_pos hi]
  omega

theorem promote_getElem? {T : Type} {l : List T} {i : Nat} (hi : i < l.length)
    (v : T) (jj : Nat) :
    (l.eraseIdx i ++ [v])[jj]? =
      if jj < i then l[jj]?
      else if jj = l.length - 1 then some v
      else if jj < l.length then l[jj + 1]?
      else none := by
  rw [List.eraseIdx_eq_take_drop_succ]
  have hta : (List.take i l).length = i := by simp; omega
  have hdr : (List.drop (i + 1) l).length = l.length - (i + 1) := by simp
  by_cases h1 : jj < i
  · rw [List.getElem?_append_left (by simp only [List.length_append, hta, hdr]; omega),
      List.getElem?_append_left (by omega), if_pos h1, List.getElem?_take_of_lt h1]
  · rw [if_neg h1]
    by_cases h2 : jj = l.length - 1
    · rw [if_pos h2,
        List.getElem?_append_right (by simp only [List.length_append, hta, hdr]; omega)]
      have hz : jj - (List.take i l ++ List.drop (i + 1) l).length = 0 := by
        simp only [List.length_append, hta, hdr]
        omega
      rw [hz]
      rfl
    · rw [if_neg h2]
      by_cases h3 : jj < l.length
      · rw [if_pos h3,
          List.getElem?_append_left (by simp only [List.length_append, hta, hdr]; omega),
          List.getElem?_append_right (by omega), hta, List.getElem?_drop]
        congr 1
        omega
      · rw [if_neg h3,
          List.getElem?_append_right (by simp only [List.length_append, hta, hdr]; omega)]
        rw [List.getElem?_eq_none]
        simp only [List.length_append, hta, hdr, List.length_singleton]
        omega

theorem listFindRev_some {T : Type} {l : List T} {pred : T → Bool} :
    ∀ s i, listFindRev l pred s = some i →
      i ≤ s ∧ (∃ a, l[i]? = some a ∧ pred a = true) ∧
      ∀ j b, i < j → j ≤ s → l[j]? = some b → pred b = false := by
  intro s
  induction s using Nat.strong_induction_on with
  | _ s ih =>
    intro i hfind
    rw [listFindRev] at hfind
    cases hx : l[s]? with
    | none => rw [hx] at hfind; cases hfind
    | some a =>
      rw [hx] at hfind
      simp only at hfind
      by_cases hp : pred a = true
      · rw [if_pos hp] at hfind
        injection hfind with hsi
        subst hsi
        exact ⟨le_refl _, ⟨a, hx, hp⟩, fun j b hij hjs hjb => by omega⟩
      · have hpf : pred a = false := by simpa using hp
        rw [if_neg hp] at hfind
        by_cases h0 : s = 0
        · rw [if_pos h0] at hfind; cases hfind
        · rw [if_neg h0] at hfind
          obtain ⟨his, hex, hmax⟩ := ih (s - 1) (by omega) i hfind
          refine ⟨by omega, hex, ?_⟩
          intro j b hij hjs hjb
          by_cases hjeq : j = s
          · subst hjeq
            rw [hx] at hjb
            injection hjb with hb
            rw [← hb]
            exact hpf
          · exact hmax j b hij (by omega) hjb

theorem listFindRev_complete {T : Type} {l : List T} {pred : T → Bool} :
    ∀ s, s < l.length → ∀ j b, j ≤ s → l[j]? = some b → pred b = true →
      ∃ i, listFindRev l pred s = some i := by
  intro s
  induction s using Nat.strong_induction_on with
  | _ s ih =>
    intro hs j b hjs hjb hpb
    rw [listFindRev]
    rw [List.getElem?_eq_getElem hs]
    simp only
    by_cases hp : pred l[s] = true
    · exact ⟨s, by rw [if_pos hp]⟩
    · rw [if_neg hp]
      by_cases h0 : s = 0
      · exfalso
        have hj0 : j = 0 := by omega
        subst hj0 h0
        rw [List.getElem?_eq_getElem hs] at hjb
        injection hjb with hb
        rw [hb] at hp
        exact hp hpb
      · rw [if_neg h0]
        by_cases hjeq : j = s
        · exfalso
          subst hjeq
          rw [List.getElem?_eq_getElem hs] at hjb
          injection hjb with hb
          rw [hb] at hp
          exact hp hpb
        · exact ih (s - 1) (by omega) (by omega) j b (by omega) hjb hpb

namespace RB

variable {T : Type} [DecidableEq T]

/-- Dedup-promote: when `v` occurs in the buffer content `l`,
`find_and_push_back v` relocates the most recent occurrence of `v` to the
newest logical position; the size and the relative order of all other
elements are unchanged, and no element is duplicated or lost. -/
theorem repr_find_and_push_back {rb : RB T} {l : List T} (h : ReprRB rb l)
    {v : T} (hv : v ∈ l) :
    ∃ i, i < l.length ∧ l[i]? = some v ∧
      (∀ k, i < k → k < l.length → l[k]? ≠ some v) ∧
      ReprRB (rb.find_and_push_back v) (l.eraseIdx i ++ [v]) := by
  have hcap : 0 < rb.buffer.length := h.1
  have hF : rb.front < rb.buffer.length := h.2.1
  have hl : l.length ≤ rb.buffer.length := h.2.2.1
  have hb : rb.back = (rb.front + l.length) % rb.buffer.length := h.2.2.2.1
  have hs : ∀ i, i < rb.buffer.length →
      rb.buffer[(rb.front + i) % rb.buffer.length]? = some l[i]? := h.2.2.2.2
  have hn : 0 < l.length := List.length_pos.mpr (List.ne_nil_of_mem hv)
  obtain ⟨j0, hj0lt, hj0v⟩ := List.getElem_of_mem hv
  have hj0q : l[j0]? = some v := by rw [List.getElem?_eq_getElem hj0lt, hj0v]
  obtain ⟨i, hfind⟩ := @listFindRev_complete T l (fun x => x == v)
    (l.length - 1) (by omega) j0 v (by omega) hj0q (by simp)
  obtain ⟨his, ⟨a, hia, hab⟩, hmax⟩ := listFindRev_some (l.length - 1) i hfind
  have hav : a = v := by simpa using hab
  rw [hav] at hia
  have hilt : i < l.length := by omega
  have hphyslt : ∀ jj : Nat,
      (rb.front + jj) % rb.buffer.length < rb.buffer.length :=
    fun jj => Nat.mod_lt _ (by omega)
  refine ⟨i, hilt, hia, ?_, ?_⟩
  · intro k hik hkl hkv
    have hfk := hmax k v hik (by omega) hkv
    simp at hfk
  · have hff : rb.find_forwards (fun x => x == v) (rb.size - 1) = some i := by
      rw [repr_size h]
      rw [find_forwards_eq h (fun x => x == v) (l.length - 1) (by omega)]
      exact hfind
    have hemp : ¬(rb.is_empty = true) := by
      rw [repr_is_empty h]
      omega
    rw [RB.find_and_push_back, if_neg hemp, hff]
    simp only
    generalize hD : (if rb.back = 0 then rb.buffer.length else rb.back) = D
    generalize hsrc : (rb.front + i) % rb.buffer.length = src
    have hsrclt : src < rb.buffer.length := by
      rw [← hsrc]
      exact Nat.mod_lt _ (by omega)
    have hDbound : 1 ≤ D ∧ D ≤ rb.buffer.length := by
      rw [← hD, hb]
      rw [mod_two_cases (rb.front + l.length) rb.buffer.length (by omega) (by omega)]
      split_ifs <;> omega
    have hDphys : D - 1 = (rb.front + (l.length - 1)) % rb.buffer.length := by
      rw [← hD, hb]
      rw [mod_two_cases (rb.front + l.length) rb.buffer.length (by omega) (by omega),
        mod_two_cases (rb.front + (l.length - 1)) rb.buffer.length (by omega) (by omega)]
      split_ifs <;> omega
    have hsrceq : src = (if rb.front + i < rb.buffer.length then rb.front + i
        else rb.front + i - rb.buffer.length) := by
      rw [← hsrc, mod_two_cases _ _ (by omega) (by omega)]
    have hDeq : D - 1 = (if rb.front + (l.length - 1) < rb.buffer.length
        then rb.front + (l.length - 1)
        else rb.front + (l.length - 1) - rb.buffer.length) := by
      rw [hDphys, mod_two_cases _ _ (by omega) (by omega)]
    have hlprom : (l.eraseIdx i ++ [v]).length = l.length := promote_length hilt v
    by_cases hA : src = D - 1
    · rw [if_pos hA]
      have hieq : i = l.length - 1 := by
        apply phys_inj hF (by omega) (by omega)
        rw [hsrc, hA, hDphys]
      refine ⟨hcap, hF, by omega, ?_, ?_⟩
      · rw [hlprom]
        exact hb
      · intro jj hjj
        rw [hs jj hjj, promote_getElem? hilt v jj]
        congr 1
        by_cases hz1 : jj < i
        · rw [if_pos hz1]
        · rw [if_neg hz1]
          by_cases hz2 : jj = l.length - 1
          · rw [if_pos hz2, hz2, ← hieq]
            exact hia
          · rw [if_neg hz2]
            by_cases hz3 : jj < l.length
            · omega
            · rw [if_neg hz3, List.getElem?_eq_none (by omega)]
    · by_cases hB : src < D
      · rw [if_neg hA, if_pos hB]
        have hAB : src < D - 1 := by omega
        have hkey : ∀ j, i ≤ j → j < l.length →
            (rb.front + j) % rb.buffer.length = src + (j - i) := by
          intro j hij hjn
          rw [mod_two_cases _ _ (by omega) (by omega)]
          split_ifs at hsrceq hDeq ⊢ <;> omega
        have hspan : D - src = l.length - i := by
          split_ifs at hsrceq hDeq <;> omega
        have hout : ∀ jj, jj < rb.buffer.length → (jj < i ∨ l.length ≤ jj) →
            (rb.front + jj) % rb.buffer.length < src ∨
            D ≤ (rb.front + jj) % rb.buffer.length := by
          intro jj hjj hz
          by_contra hcon
          push_neg at hcon
          obtain ⟨h1, h2⟩ := hcon
          have hcall := hkey (i + ((rb.front + jj) % rb.buffer.length - src))
            (by omega) (by omega)
          have heq : jj = i + ((rb.front + jj) % rb.buffer.length - src) := by
            apply phys_inj hF hjj (by omega)
            rw [hcall]
            omega
          omega
        have hrot : (rotateRange rb.buffer src D).length = rb.buffer.length :=
          rotateRange_length (by omega) (by omega)
        refine ⟨?_, ?_, ?_, ?_, ?_⟩
        · show 0 < (rotateRange rb.buffer src D).length
          rw [hrot]
          exact hcap
        · show rb.front < (rotateRange rb.buffer src D).length
          rw [hrot]
          exact hF
        · show (l.eraseIdx i ++ [v]).length ≤ (rotateRange rb.buffer src D).length
          rw [hrot, hlprom]
          exact hl
        · show rb.back =
            (rb.front + (l.eraseIdx i ++ [v]).length) % (rotateRange rb.buffer src D).length
          rw [hrot, hlprom]
          exact hb
        · intro jj hjj
          rw [hrot] at hjj
          show (rotateRange rb.buffer src D)[(rb.front + jj) % (rotateRange rb.buffer src D).length]? =
            some (l.eraseIdx i ++ [v])[jj]?
          rw [hrot, rotateRange_getElem? (by omega) (by omega),
            promote_getElem? hilt v jj]
          by_cases hz : jj < i ∨ l.length ≤ jj
          · have hor := hout jj hjj hz
            have hred : (if (rb.front + jj) % rb.buffer.length < src then
                  rb.buffer[(rb.front + jj) % rb.buffer.length]?
                else if (rb.front + jj) % rb.buffer.length = D - 1 then rb.buffer[src]?
                else if (rb.front + jj) % rb.buffer.length < D then
                  rb.buffer[(rb.front + jj) % rb.buffer.length + 1]?
                else rb.buffer[(rb.front + jj) % rb.buffer.length]?) =
                rb.buffer[(rb.front + jj) % rb.buffer.length]? := by
              rcases hor with h1 | h1
              · rw [if_pos h1]
              · rw [if_neg (by omega), if_neg (by omega), if_neg (by omega)]
            rw [hred, hs jj hjj]
            congr 1
            rcases hz with h1 | h1
            · rw [if_pos h1]
            · rw [if_neg (by omega), if_neg (by omega), if_neg (by omega),
                List.getElem?_eq_none (by omega)]
          · push_neg at hz
            obtain ⟨hz1, hz2⟩ := hz
            by_cases hz5 : jj = l.length - 1
            · have hp : (rb.front + jj) % rb.buffer.length = D - 1 := by
                rw [hz5, ← hDphys]
              rw [hp, if_neg (by omega), if_pos rfl, ← hsrc, hs i (by omega)]
              congr 1
              rw [if_neg (by omega), if_pos hz5]
              exact hia
            · have hjlt : jj < l.length - 1 := by omega
              have hpj := hkey jj (by omega) (by omega)
              have hpj1 := hkey (jj + 1) (by omega) (by omega)
              have hlt1 : src + (jj - i) < D - 1 := by omega
              rw [hpj, if_neg (by omega), if_neg (by omega), if_pos (by omega)]
              rw [show src + (jj - i) + 1 = src + (jj + 1 - i) by omega, ← hpj1,
                hs (jj + 1) (by omega)]
              congr 1
              rw [if_neg (by omega), if_neg hz5, if_pos (by omega)]
      · rw [if_neg hA, if_neg hB]
        push_neg at hB
        have hcase : rb.front + i < rb.buffer.length ∧
            rb.buffer.length ≤ rb.front + (l.length - 1) := by
          split_ifs at hsrceq hDeq <;> omega
        obtain ⟨hciu, hcil⟩ := hcase
        have hsrcF : src = rb.front + i := by
          split_ifs at hsrceq <;> omega
        have hDF : D = rb.front + l.length - rb.buffer.length := by
          split_ifs at hDeq <;> omega
        have hDltcap : D < rb.buffer.length := by omega
        have hspan2 : (rb.buffer.length - src) + D = l.length - i := by omega
        have hupper : ∀ j, i ≤ j → j - i < rb.buffer.length - src →
            (rb.front + j) % rb.buffer.length = src + (j - i) := by
          intro j hij hjk
          rw [mod_two_cases _ _ (by omega) (by omega), if_pos (by omega)]
          omega
        have hlower : ∀ j, rb.buffer.length - src ≤ j - i → j < l.length →
            (rb.front + j) % rb.buffer.length = (j - i) - (rb.buffer.length - src) := by
          intro j hjk hjn
          rw [mod_two_cases _ _ (by omega) (by omega), if_neg (by omega)]
          omega
        have houtC : ∀ jj, jj < rb.buffer.length → (jj < i ∨ l.length ≤ jj) →
            D ≤ (rb.front + jj) % rb.buffer.length ∧
            (rb.front + jj) % rb.buffer.length < src := by
          intro jj hjj hz
          have hpcap := hphyslt jj
          constructor
          · by_contra hcon
            push_neg at hcon
            have hj' := hlower
              (i + ((rb.buffer.length - src) + (rb.front + jj) % rb.buffer.length))
              (by omega) (by omega)
            have heq : jj =
                i + ((rb.buffer.length - src) + (rb.front + jj) % rb.buffer.length) := by
              apply phys_inj hF hjj (by omega)
              rw [hj']
              omega
            omega
          · by_contra hcon
            push_neg at hcon
            have hj' := hupper
              (i + ((rb.front + jj) % rb.buffer.length - src))
              (by omega) (by omega)
            have heq : jj = i + ((rb.front + jj) % rb.buffer.length - src) := by
              apply phys_inj hF hjj (by omega)
              rw [hj']
              omega
            omega
        have hb1len : (rotateRange rb.buffer src rb.buffer.length).length =
            rb.buffer.length := rotateRange_length (by omega) (le_refl _)
        have hb2len : (rotateRange (rotateRange rb.buffer src rb.buffer.length) 0 D).length =
            rb.buffer.length := by
          rw [rotateRange_length (by omega) (by rw [hb1len]; omega), hb1len]
        have hswlen : (listSwap (rotateRange (rotateRange rb.buffer src rb.buffer.length) 0 D)
            (rb.buffer.length - 1) (D - 1)).length = rb.buffer.length := by
          rw [listSwap_length, hb2len]
        have hb1get : ∀ p, (rotateRange rb.buffer src rb.buffer.length)[p]? =
            if p < src then rb.buffer[p]?
            else if p = rb.buffer.length - 1 then rb.buffer[src]?
            else if p < rb.buffer.length then rb.buffer[p + 1]?
            else rb.buffer[p]? := by
          intro p
          rw [rotateRange_getElem? (by omega) (le_refl _)]
        have hb2get : ∀ p,
            (rotateRange (rotateRange rb.buffer src rb.buffer.length) 0 D)[p]? =
            if p = D - 1 then (rotateRange rb.buffer src rb.buffer.length)[0]?
            else if p < D then (rotateRange rb.buffer src rb.buffer.length)[p + 1]?
            else (rotateRange rb.buffer src rb.buffer.length)[p]? := by
          intro p
          rw [rotateRange_getElem? (by omega) (by rw [hb1len]; omega), if_neg (by omega)]
        have hcomp : ∀ p, p < rb.buffer.length →
            (listSwap (rotateRange (rotateRange rb.buffer src rb.buffer.length) 0 D)
              (rb.buffer.length - 1) (D - 1))[p]? =
            if p = rb.buffer.length - 1 then rb.buffer[0]?
            else if p = D - 1 then rb.buffer[src]?
            else if D ≤ p ∧ p < src then rb.buffer[p]?
            else rb.buffer[p + 1]? := by
          intro p hp
          rw [listSwap_getElem? (by rw [hb2len]; omega) (by rw [hb2len]; omega)
            (by omega) p]
          by_cases hp1 : p = rb.buffer.length - 1
          · rw [if_pos hp1, if_pos hp1, hb2get, if_pos rfl, hb1get,
              if_pos (by omega)]
          · rw [if_neg hp1, if_neg hp1]
            by_cases hp2 : p = D - 1
            · rw [if_pos hp2, if_pos hp2, hb2get, if_neg (by omega),
                if_neg (by omega), hb1get, if_neg (by omega), if_pos rfl]
            · rw [if_neg hp2, if_neg hp2, hb2get]
              by_cases hp3 : D ≤ p ∧ p < src
              · rw [if_pos hp3, if_neg hp2, if_neg (by omega), hb1get,
                  if_pos (by omega)]
              · rw [if_neg hp3]
                by_cases hp4 : p < D
                · rw [if_neg hp2, if_pos hp4, hb1get, if_pos (by omega)]
                · rw [if_neg hp2, if_neg hp4, hb1get, if_neg (by omega),
                    if_neg (by omega), if_pos (by omega)]
        refine ⟨?_, ?_, ?_, ?_, ?_⟩
        · show 0 < (listSwap (rotateRange (rotateRange rb.buffer src rb.buffer.length) 0 D)
            (rb.buffer.length - 1) (D - 1)).length
          rw [hswlen]
          exact hcap
        · show rb.front < (listSwap (rotateRange (rotateRange rb.buffer src rb.buffer.length) 0 D)
            (rb.buffer.length - 1) (D - 1)).length
          rw [hswlen]
          exact hF
        · show (l.eraseIdx i ++ [v]).length ≤
            (listSwap (rotateRange (rotateRange rb.buffer src rb.buffer.length) 0 D)
              (rb.buffer.length - 1) (D - 1)).length
          rw [hswlen, hlprom]
          exact hl
        · show rb.back = (rb.front + (l.eraseIdx i ++ [v]).length) %
            (listSwap (rotateRange (rotateRange rb.buffer src rb.buffer.length) 0 D)
              (rb.buffer.length - 1) (D - 1)).length
          rw [hswlen, hlprom]
          exact hb
        · intro jj hjj
          rw [hswlen] at hjj
          show (listSwap (rotateRange (rotateRange rb.buffer src rb.buffer.length) 0 D)
              (rb.buffer.length - 1) (D - 1))[(rb.front + jj) %
                (listSwap (rotateRange (rotateRange rb.buffer src rb.buffer.length) 0 D)
                  (rb.buffer.length - 1) (D - 1)).length]? =
            some (l.eraseIdx i ++ [v])[jj]?
          rw [hswlen, hcomp _ (hphyslt jj), promote_getElem? hilt v jj]
          by_cases hz : jj < i ∨ l.length ≤ jj
          · obtain ⟨ho1, ho2⟩ := houtC jj hjj hz
            rw [if_neg (by omega), if_neg (by omega), if_pos (by omega), hs jj hjj]
            congr 1
            rcases hz with h1 | h1
            · rw [if_pos h1]
            · rw [if_neg (by omega), if_neg (by omega), if_neg (by omega),
                List.getElem?_eq_none (by omega)]
          · push_neg at hz
            obtain ⟨hz1, hz2⟩ := hz
            by_cases hz5 : jj = l.length - 1
            · have hp : (rb.front + jj) % rb.buffer.length = D - 1 := by
                rw [hlower jj (by omega) (by omega)]
                omega
              rw [hp, if_neg (by omega), if_pos rfl, ← hsrc, hs i (by omega)]
              congr 1
              rw [if_neg (by omega), if_pos hz5]
              exact hia
            · have hjlt : jj < l.length - 1 := by omega
              by_cases hz3 : jj - i < rb.buffer.length - src - 1
              · have hpj := hupper jj (by omega) (by omega)
                have hpj1 := hupper (jj + 1) (by omega) (by omega)
                rw [hpj, if_neg (by omega), if_neg (by omega), if_neg (by omega)]
                rw [show src + (jj - i) + 1 = src + (jj + 1 - i) by omega, ← hpj1,
                  hs (jj + 1) (by omega)]
                congr 1
                rw [if_neg (by omega), if_neg hz5, if_pos (by omega)]
              · by_cases hz4 : jj - i = rb.buffer.length - src - 1
                · have hpj := hupper jj (by omega) (by omega)
                  have hpj1 := hlower (jj + 1) (by omega) (by omega)
                  rw [hpj, if_pos (by omega)]
                  have hz0 : (0 : Nat) = (rb.front + (jj + 1)) % rb.buffer.length := by
                    rw [hpj1]
                    omega
                  rw [show rb.buffer[(0 : Nat)]? = rb.buffer[(rb.front + (jj + 1)) % rb.buffer.length]? by rw [← hz0],
                    hs (jj + 1) (by omega)]
                  congr 1
                  rw [if_neg (by omega), if_neg hz5, if_pos (by omega)]
                · have hpj := hlower jj (by omega) (by omega)
                  have hpj1 := hlower (jj + 1) (by omega) (by omega)
                  have hplt : (jj - i) - (rb.buffer.length - src) < D - 1 := by omega
                  rw [hpj, if_neg (by omega), if_neg (by omega), if_neg (by omega)]
                  rw [show (jj - i) - (rb.buffer.length - src) + 1 =
                      (jj + 1 - i) - (rb.buffer.length - src) by omega, ← hpj1,
                    hs (jj + 1) (by omega)]
                  congr 1
                  rw [if_neg (by omega), if_neg hz5, if_pos (by omega)]

omit [DecidableEq T] in
theorem push_back_buffer_length (rb : RB T) (v : T) :
    (rb.push_back v).buffer.length = rb.buffer.length := by
  unfold RB.push_back
  split <;> simp

end RB

namespace RB

theorem repr_new (T : Type) {c : Nat} (hc : 0 < c) : ReprRB (RB.new T c) [] := by
  refine ⟨by simpa [RB.new] using hc, by simpa [RB.new] using hc, by simp,
    by simp [RB.new], ?_⟩
  intro i hi
  simp only [RB.new, List.length_replicate] at hi ⊢
  rw [List.getElem?_replicate, if_pos (Nat.mod_lt _ (by omega))]
  rw [List.getElem?_eq_none (by simp)]

theorem repr_foldl_push {T : Type} {c : Nat} :
    ∀ (vs : List T) (rb : RB T) (l : List T),
      ReprRB rb l → rb.buffer.length = c →
      ReprRB (vs.foldl (fun rb v => rb.push_back v) rb)
        (vs.foldl (fun l v => if l.length = c then l.tail ++ [v] else l ++ [v]) l) := by
  intro vs
  induction vs with
  | nil => intro rb l h _; exact h
  | cons v vs ih =>
    intro rb l h hcEq
    simp only [List.foldl_cons]
    apply ih
    · have hpb := repr_push_back h v
      rwa [hcEq] at hpb
    · rw [push_back_buffer_length, hcEq]

theorem repr_pushAll {T : Type} {c : Nat} (hc : 0 < c) (vs : List T) :
    ReprRB (pushAll T c vs) (pushModel c vs) := by
  apply repr_foldl_push vs (RB.new T c) [] (repr_new T hc)
  simp [RB.new]

theorem pushModel_within {T : Type} {c : Nat} :
    ∀ (vs l : List T), l.length + vs.length ≤ c →
      List.foldl (fun l v => if l.length = c then l.tail ++ [v] else l ++ [v]) l vs
        = l ++ vs := by
  intro vs
  induction vs with
  | nil => intro l _; simp
  | cons v vs ih =>
    intro l h
    simp only [List.foldl_cons]
    rw [if_neg (by simp at h ⊢; omega)]
    rw [ih (l ++ [v]) (by simp at h ⊢; omega)]
    simp

theorem pushModel_eq_self {T : Type} {c : Nat} (vs : List T) (h : vs.length ≤ c) :
    pushModel c vs = vs := by
  rw [pushModel, pushModel_within vs [] (by simpa using h)]
  simp

end RB

mutual

theorem input_isSome_iff : ∀ (e : LayoutElement),
    (e.input).isSome = true ↔ 0 < e.inputCount
  | .HorizontalStack children _ => inputs_isSome_iff children
  | .VerticalStack children _ => inputs_isSome_iff children
  | .Pane .InputPane => by
    show (some ()).isSome = true ↔ 0 < 1
    simp
  | .Pane (.ScrollPane id) => by
    show (none : Option Unit).isSome = true ↔ 0 < 0
    simp

theorem inputs_isSome_iff : ∀ (es : List LayoutElement),
    (inputsFindMap es).isSome = true ↔ 0 < inputsCount es
  | [] => by
    show (none : Option Unit).isSome = true ↔ 0 < 0
    simp
  | c :: cs => by
    have h1 := input_isSome_iff c
    have h2 := inputs_isSome_iff cs
    rw [inputsFindMap, inputsCount]
    cases hx : c.input with
    | some p =>
      rw [hx] at h1
      simp only [Option.isSome_some, true_iff] at h1
      simp only [Option.isSome_some, true_iff]
      omega
    | none =>
      rw [hx] at h1
      simp only [Option.isSome_none, Bool.false_eq_true, false_iff] at h1
      have hc0 : c.inputCount = 0 := by omega
      rw [hc0]
      simpa using h2

end

mutual

theorem pane_isSome_iff : ∀ (e : LayoutElement) (pid : Nat),
    (e.pane pid).isSome = true ↔ e.hasScroll pid = true
  | .HorizontalStack children _, pid => panes_isSome_iff children pid
  | .VerticalStack children _, pid => panes_isSome_iff children pid
  | .Pane (.ScrollPane (some id)), pid => by
    rw [LayoutElement.pane, LayoutElement.hasScroll]
    by_cases hx : pid = id
    · rw [if_pos hx]
      simp [hx]
    · rw [if_neg hx]
      simp [hx]
  | .Pane (.ScrollPane none), pid => by
    show (none : Option LayoutPane).isSome = true ↔ false = true
    simp
  | .Pane .InputPane, pid => by
    show (none : Option LayoutPane).isSome = true ↔ false = true
    simp

theorem panes_isSome_iff : ∀ (es : List LayoutElement) (pid : Nat),
    (panesFindMap es pid).isSome = true ↔ hasScrollAny es pid = true
  | [], pid => by
    show (none : Option LayoutPane).isSome = true ↔ false = true
    simp
  | c :: cs, pid => by
    have h1 := pane_isSome_iff c pid
    have h2 := panes_isSome_iff cs pid
    rw [panesFindMap, hasScrollAny]
    cases hx : c.pane pid with
    | some p =>
      rw [hx] at h1
      simp only [Option.isSome_some, true_iff] at h1
      simp [h1]
    | none =>
      rw [hx] at h1
      simp only [Option.isSome_none, Bool.false_eq_true, false_iff] at h1
      have hc0 : c.hasScroll pid = false := by
        cases hcs : c.hasScroll pid
        · rfl
        · exact absurd hcs h1
      rw [hc0]
      simpa using h2

end

/-! ## Claim theorems -/

/-- C1: the specification requires that for every output line delivered to
the automation actor, each pending waiter whose pattern matches the line
is satisfied exactly once and removed, and non-matching waiters remain
pending unchanged. The code violates this: it collects the matching
indices first and then calls `Vec::remove` on each collected index, so
the indices shift. Evaluated on three waiters whose patterns are
(match, match, no-match): the pass resolves waiter 0 and the
*non-matching* waiter 2 and leaves the matching waiter 1 pending; on the
two overlapping matching waiters alone, the second `remove(1)` indexes a
one-element vector and panics (`none`). -/
theorem C1_output_pass_misresolves :
    (handleOutput [⟨fun _ => true, 0⟩, ⟨fun _ => true, 1⟩, ⟨fun _ => false, 2⟩]
        "line").map (fun r => (r.1.map Waiter.id, r.2)) = some ([1], [0, 2]) ∧
    (handleOutput [⟨fun _ => true, 0⟩, ⟨fun _ => true, 1⟩] "line").isNone = true := by
  exact ⟨rfl, rfl⟩

/-- C2: for every non-empty well-formed buffer state representing content
`l` and every value `v` present in `l`, `find_and_push_back v` promotes
the most recent occurrence of `v` (index `i`, the greatest index holding
`v`): afterwards the content is `l.eraseIdx i ++ [v]`, so (a) the size is
unchanged, (b) the newest logical slot holds `v`, (c) the relative order
of all other elements is unchanged, and (d) no element is duplicated or
lost; wrap-around states are covered because the statement quantifies
over all representable states. -/
theorem C2_find_and_push_back_promotes {T : Type} [DecidableEq T]
    {rb : RB T} {l : List T} (h : ReprRB rb l) {v : T} (hv : v ∈ l) :
    ∃ i, i < l.length ∧ l[i]? = some v ∧
      (∀ k, i < k → k < l.length → l[k]? ≠ some v) ∧
      ReprRB (rb.find_and_push_back v) (l.eraseIdx i ++ [v]) ∧
      (rb.find_and_push_back v).size = rb.size ∧
      (rb.find_and_push_back v).get ((rb.find_and_push_back v).size - 1) = some v := by
  obtain ⟨i, h1, h2, h3, h4⟩ := RB.repr_find_and_push_back h hv
  have hn : 0 < l.length := List.length_pos.mpr (List.ne_nil_of_mem hv)
  have hlen := promote_length h1 v
  refine ⟨i, h1, h2, h3, h4, ?_, ?_⟩
  · rw [RB.repr_size h4, RB.repr_size h, hlen]
  · rw [RB.repr_size h4, hlen]
    have hblen : l.length ≤ (rb.find_and_push_back v).buffer.length := by
      have := h4.2.2.1
      rwa [hlen] at this
    rw [RB.repr_get h4 (by omega), promote_getElem? h1 v (l.length - 1),
      if_neg (by omega), if_pos rfl]

/-- C2 witness: a concrete wrap-around state — capacity 3, physical buffer
`[3, 1, 2]` with `front = back = 1`, logical content `[1, 2, 3]` — and
the promotion of the duplicate value 1. -/
theorem C2_witness :
    (ReprRB (⟨[some 3, some 1, some 2], 1, 1⟩ : RB Nat) [1, 2, 3] ∧
      (1 : Nat) ∈ [1, 2, 3]) ∧
    (∃ i, i < ([1, 2, 3] : List Nat).length ∧ ([1, 2, 3] : List Nat)[i]? = some 1 ∧
      (∀ k, i < k → k < ([1, 2, 3] : List Nat).length →
        ([1, 2, 3] : List Nat)[k]? ≠ some 1) ∧
      ReprRB ((⟨[some 3, some 1, some 2], 1, 1⟩ : RB Nat).find_and_push_back 1)
        (([1, 2, 3] : List Nat).eraseIdx i ++ [1]) ∧
      ((⟨[some 3, some 1, some 2], 1, 1⟩ : RB Nat).find_and_push_back 1).size =
        (⟨[some 3, some 1, some 2], 1, 1⟩ : RB Nat).size ∧
      ((⟨[some 3, some 1, some 2], 1, 1⟩ : RB Nat).find_and_push_back 1).get
        (((⟨[some 3, some 1, some 2], 1, 1⟩ : RB Nat).find_and_push_back 1).size - 1) =
        some 1) :=
  ⟨⟨by decide, by decide⟩, C2_find_and_push_back_promotes (by decide) (by decide)⟩

/-- C3 counterexample: the claim states that every presentation-originated
send event also yields a presentation echo request; for the plain `Send`
event the router issues the connection send request but no presentation
request at all. -/
theorem C3_counterexample :
    (handle_tui_event (TuiEvent.Send "hi")).telnet = [TelnetRequest.Send "hi"] ∧
    (handle_tui_event (TuiEvent.Send "hi")).tui = [] := by
  exact ⟨rfl, rfl⟩

/-- C3 amended: a presentation send event yields only the connection send
request (no echo); a presentation send-secret event yields the connection
send request plus one echo that carries the fixed mask "*****", and when
the secret text differs from the mask the literal text appears in no
presentation request. -/
theorem C3_router_send_requests (data : String) :
    (handle_tui_event (TuiEvent.Send data)).telnet = [TelnetRequest.Send data] ∧
    (handle_tui_event (TuiEvent.Send data)).tui = [] ∧
    (handle_tui_event (TuiEvent.SendSecret data)).telnet = [TelnetRequest.Send data] ∧
    (handle_tui_event (TuiEvent.SendSecret data)).tui =
      [TuiRequest.PrintUserInput "*****" 1] ∧
    (data ≠ "*****" →
      ∀ r ∈ (handle_tui_event (TuiEvent.SendSecret data)).tui, r.text ≠ data) := by
  refine ⟨rfl, rfl, rfl, rfl, ?_⟩
  intro hne r hr
  simp only [handle_tui_event, List.mem_singleton] at hr
  subst hr
  show "*****" ≠ data
  exact fun hh => hne hh.symm

/-- C3 witness: the amended statement evaluated at the secret "hunter2". -/
theorem C3_witness :
    (handle_tui_event (TuiEvent.Send "hunter2")).telnet =
      [TelnetRequest.Send "hunter2"] ∧
    (handle_tui_event (TuiEvent.Send "hunter2")).tui = [] ∧
    (handle_tui_event (TuiEvent.SendSecret "hunter2")).telnet =
      [TelnetRequest.Send "hunter2"] ∧
    (handle_tui_event (TuiEvent.SendSecret "hunter2")).tui =
      [TuiRequest.PrintUserInput "*****" 1] ∧
    ("hunter2" ≠ "*****" →
      ∀ r ∈ (handle_tui_event (TuiEvent.SendSecret "hunter2")).tui,
        r.text ≠ "hunter2") :=
  C3_router_send_requests "hunter2"

/-- C4: from a fresh buffer of capacity `c > 0`, after pushing the
sequence `vs` the size equals the model content's length; when
`vs.length ≤ c` the size equals the number of pushes and `get i` returns
the i-th pushed value for every `i`; the size never exceeds `c`; and a
push into any full well-formed buffer evicts exactly the oldest element
(content `l` becomes `l.tail ++ [v]`). -/
theorem C4_push_back_sequences {T : Type} (c : Nat) (hc : 0 < c) (vs : List T) :
    (pushAll T c vs).size = (pushModel c vs).length ∧
    (vs.length ≤ c →
      (pushAll T c vs).size = vs.length ∧
      ∀ i, i < vs.length → (pushAll T c vs).get i = vs[i]?) ∧
    (pushAll T c vs).size ≤ c ∧
    (∀ (rb : RB T) (l : List T) (v : T), ReprRB rb l →
      l.length = rb.buffer.length → ReprRB (rb.push_back v) (l.tail ++ [v])) := by
  have hrepr := RB.repr_pushAll hc vs
  have hsz := RB.repr_size hrepr
  refine ⟨hsz, ?_, ?_, ?_⟩
  · intro hle
    have hmodel := RB.pushModel_eq_self vs hle
    constructor
    · rw [hsz, hmodel]
    · intro i hi
      have hbl : i < (pushAll T c vs).buffer.length := by
        have h1 := hrepr.2.2.1
        rw [hmodel] at h1
        omega
      rw [RB.repr_get hrepr hbl, hmodel]
  · have h1 := hrepr.2.2.1
    have h2 : (pushAll T c vs).buffer.length = c := by
      rw [pushAll]
      have : ∀ (ws : List T) (rb : RB T),
          (ws.foldl (fun rb v => rb.push_back v) rb).buffer.length =
            rb.buffer.length := by
        intro ws
        induction ws with
        | nil => intro rb; rfl
        | cons w ws ih =>
          intro rb
          rw [List.foldl_cons, ih, RB.push_back_buffer_length]
      rw [this, RB.new]
      simp
    omega
  · intro rb l v h hfull
    have := RB.repr_push_back h v
    rwa [if_pos hfull] at this

/-- C4 witness: capacity 2, pushes [7, 8, 9] (the third push evicts 7). -/
theorem C4_witness :
    0 < 2 ∧
    ((pushAll Nat 2 [7, 8, 9]).size = (pushModel 2 [7, 8, 9]).length ∧
    (([7, 8, 9] : List Nat).length ≤ 2 →
      (pushAll Nat 2 [7, 8, 9]).size = ([7, 8, 9] : List Nat).length ∧
      ∀ i, i < ([7, 8, 9] : List Nat).length →
        (pushAll Nat 2 [7, 8, 9]).get i = ([7, 8, 9] : List Nat)[i]?) ∧
    (pushAll Nat 2 [7, 8, 9]).size ≤ 2 ∧
    (∀ (rb : RB Nat) (l : List Nat) (v : Nat), ReprRB rb l →
      l.length = rb.buffer.length → ReprRB (rb.push_back v) (l.tail ++ [v]))) :=
  ⟨by decide, C4_push_back_sequences 2 (by decide) [7, 8, 9]⟩

set_option maxRecDepth 8192 in
/-- C5: the specification requires the reported cursor position to be the
matched entry's length in characters when the query is empty. The code
returns `str::len()` — the UTF-8 byte count — in that branch: with the
multi-byte history entry "é" (one character, two bytes) matched under an
empty query, the code reports 2 while the character length is 1. -/
theorem C5_cursor_position_uses_bytes :
    (InputLine.cursor_position
      ⟨InputState.HistorySearch "" 0, (RB.new String 1000).push_back "é"⟩) = 2 ∧
    ((((RB.new String 1000).push_back "é").get 0).getD "").length = 1 := by
  exact ⟨rfl, rfl⟩

set_option maxRecDepth 8192 in
/-- C6 counterexample: in history search with an empty query over history
["abc"], the displayed text (the `as_line` segments) is the matched entry
"abc", yet `get_and_clear` returns "" — not the displayed text as the
claim states. -/
theorem C6_counterexample :
    ((⟨InputState.HistorySearch "" 0, (RB.new String 1000).push_back "abc"⟩ :
      InputLine).get_and_clear).1 = "" ∧
    (((⟨InputState.HistorySearch "" 0, (RB.new String 1000).push_back "abc"⟩ :
      InputLine).as_line).1 ++
     ((⟨InputState.HistorySearch "" 0, (RB.new String 1000).push_back "abc"⟩ :
      InputLine).as_line).2) = "abc" ∧
    ("" : String) ≠ "abc" := by
  refine ⟨rfl, rfl, by decide⟩

/-- C6 amended: `get_and_clear` returns the typing buffer or, in history
search, the typed query itself (even when the query is empty, in which
case the displayed matched entry is *not* returned); it never modifies
the history in any way and resets the state to empty `Typing`. -/
theorem C6_get_and_clear_spec (il : InputLine) :
    (il.get_and_clear).1 = (match il.state with
      | InputState.Typing buffer _ => buffer
      | InputState.HistorySearch term _ => term) ∧
    (il.get_and_clear).2.history = il.history ∧
    (il.get_and_clear).2.state = InputState.empty_typing := by
  rcases il with ⟨st, hist⟩
  cases st with
  | Typing buffer cursor => exact ⟨rfl, rfl, rfl⟩
  | HistorySearch term index => exact ⟨rfl, rfl, rfl⟩

set_option maxRecDepth 8192 in
/-- C6 witness: the amended statement at the empty-query history-search
state over the single-entry history ["abc"]. -/
theorem C6_witness :
    ((⟨InputState.HistorySearch "" 0, (RB.new String 1000).push_back "abc"⟩ :
      InputLine).get_and_clear).1 =
      (match (⟨InputState.HistorySearch "" 0,
          (RB.new String 1000).push_back "abc"⟩ : InputLine).state with
        | InputState.Typing buffer _ => buffer
        | InputState.HistorySearch term _ => term) ∧
    ((⟨InputState.HistorySearch "" 0, (RB.new String 1000).push_back "abc"⟩ :
      InputLine).get_and_clear).2.history =
      (⟨InputState.HistorySearch "" 0, (RB.new String 1000).push_back "abc"⟩ :
        InputLine).history ∧
    ((⟨InputState.HistorySearch "" 0, (RB.new String 1000).push_back "abc"⟩ :
      InputLine).get_and_clear).2.state = InputState.empty_typing :=
  C6_get_and_clear_spec
    ⟨InputState.HistorySearch "" 0, (RB.new String 1000).push_back "abc"⟩

/-- C7 counterexample: the claim requires acceptance only for layouts with
*exactly one* input surface; a layout with two input panes (and the
default scroll pane with id 1) is accepted by the code. -/
theorem C7_counterexample :
    set_layout (LayoutElement.VerticalStack
      [LayoutElement.Pane (LayoutPane.ScrollPane (some 1)),
       LayoutElement.Pane LayoutPane.InputPane,
       LayoutElement.Pane LayoutPane.InputPane] []) =
      Except.ok [ScriptEngineEvent.SetLayout (LayoutElement.VerticalStack
        [LayoutElement.Pane (LayoutPane.ScrollPane (some 1)),
         LayoutElement.Pane LayoutPane.InputPane,
         LayoutElement.Pane LayoutPane.InputPane] [])] ∧
    (LayoutElement.VerticalStack
      [LayoutElement.Pane (LayoutPane.ScrollPane (some 1)),
       LayoutElement.Pane LayoutPane.InputPane,
       LayoutElement.Pane LayoutPane.InputPane] []).inputCount = 2 := by
  exact ⟨rfl, rfl⟩

/-- C7 amended: `set_layout` accepts a layout iff it contains at least one
input pane and a scroll pane with identifier 1; an accepted call emits
exactly the layout-change event, and any other layout is rejected with an
error and no event is emitted. -/
theorem C7_set_layout_validation (layout : LayoutElement) :
    ((∃ evs, set_layout layout = Except.ok evs) ↔
      0 < layout.inputCount ∧ layout.hasScroll 1 = true) ∧
    (∀ evs, set_layout layout = Except.ok evs →
      evs = [ScriptEngineEvent.SetLayout layout]) ∧
    (¬(0 < layout.inputCount ∧ layout.hasScroll 1 = true) →
      ∃ e, set_layout layout = Except.error e) := by
  have hin := input_isSome_iff layout
  have hpn := pane_isSome_iff layout 1
  rw [set_layout]
  by_cases h1 : (layout.input).isNone
  · have h1' : ¬(layout.input).isSome = true := by
      cases hx : layout.input
      · simp
      · rw [hx] at h1
        cases h1
    rw [if_pos h1]
    refine ⟨?_, ?_, ?_⟩
    · constructor
      · rintro ⟨evs, hevs⟩
        cases hevs
      · rintro ⟨hcount, _⟩
        exact absurd (hin.mpr hcount) h1'
    · intro evs hevs
      cases hevs
    · intro _
      exact ⟨_, rfl⟩
  · have h1' : (layout.input).isSome = true := by
      cases hx : layout.input
      · rw [hx] at h1
        exact absurd rfl h1
      · simp
    rw [if_neg h1]
    by_cases h2 : (layout.pane 1).isNone
    · have h2' : ¬(layout.pane 1).isSome = true := by
        cases hx : layout.pane 1
        · simp
        · rw [hx] at h2
          cases h2
      rw [if_pos h2]
      refine ⟨?_, ?_, ?_⟩
      · constructor
        · rintro ⟨evs, hevs⟩
          cases hevs
        · rintro ⟨_, hscroll⟩
          exact absurd (hpn.mpr hscroll) h2'
      · intro evs hevs
        cases hevs
      · intro _
        exact ⟨_, rfl⟩
    · have h2' : (layout.pane 1).isSome = true := by
        cases hx : layout.pane 1
        · rw [hx] at h2
          exact absurd rfl h2
        · simp
      rw [if_neg h2]
      refine ⟨?_, ?_, ?_⟩
      · constructor
        · intro _
          exact ⟨hin.mp h1', hpn.mp h2'⟩
        · intro _
          exact ⟨_, rfl⟩
      · intro evs hevs
        cases hevs
        rfl
      · intro hcon
        exact absurd ⟨hin.mp h1', hpn.mp h2'⟩ hcon

/-- C7 witness: the minimal valid layout — a vertical stack of the scroll
pane with id 1 and one input pane — instantiating the amended statement. -/
theorem C7_witness :
    ((∃ evs, set_layout (LayoutElement.VerticalStack
        [LayoutElement.Pane (LayoutPane.ScrollPane (some 1)),
         LayoutElement.Pane LayoutPane.InputPane] []) = Except.ok evs) ↔
      0 < (LayoutElement.VerticalStack
        [LayoutElement.Pane (LayoutPane.ScrollPane (some 1)),
         LayoutElement.Pane LayoutPane.InputPane] []).inputCount ∧
      (LayoutElement.VerticalStack
        [LayoutElement.Pane (LayoutPane.ScrollPane (some 1)),
         LayoutElement.Pane LayoutPane.InputPane] []).hasScroll 1 = true) ∧
    (∀ evs, set_layout (LayoutElement.VerticalStack
        [LayoutElement.Pane (LayoutPane.ScrollPane (some 1)),
         LayoutElement.Pane LayoutPane.InputPane] []) = Except.ok evs →
      evs = [ScriptEngineEvent.SetLayout (LayoutElement.VerticalStack
        [LayoutElement.Pane (LayoutPane.ScrollPane (some 1)),
         LayoutElement.Pane LayoutPane.InputPane] [])]) ∧
    (¬(0 < (LayoutElement.VerticalStack
        [LayoutElement.Pane (LayoutPane.ScrollPane (some 1)),
         LayoutElement.Pane LayoutPane.InputPane] []).inputCount ∧
       (LayoutElement.VerticalStack
        [LayoutElement.Pane (LayoutPane.ScrollPane (some 1)),
         LayoutElement.Pane LayoutPane.InputPane] []).hasScroll 1 = true) →
      ∃ e, set_layout (LayoutElement.VerticalStack
        [LayoutElement.Pane (LayoutPane.ScrollPane (some 1)),
         LayoutElement.Pane LayoutPane.InputPane] []) = Except.error e) :=
  C7_set_layout_validation (LayoutElement.VerticalStack
    [LayoutElement.Pane (LayoutPane.ScrollPane (some 1)),
     LayoutElement.Pane LayoutPane.InputPane] [])

/-- C8: whenever a read or decode step fails while connected (the impl
returns an error), the actor emits exactly one error event immediately
followed by exactly one "Disconnected." warning after any events already
sent, tears the socket down, and keeps running; every Send handled while
disconnected produces one "Connection is closed" error event, writes no
bytes, and does not stop the loop; and a subsequent successful Connect
re-enters the connected state with the two informational events. -/
theorem C8_failure_teardown_and_recovery (s : Nat) (res : ReadResult)
    (err : String) (herr : (handle_telnet_recv_impl (some s) res).2 = some err) :
    handle_telnet_recv (some s) res =
      (none, (handle_telnet_recv_impl (some s) res).1 ++
        [TelnetEvent.Error err, TelnetEvent.Warning "Disconnected."]) ∧
    (∀ d cr, handle_request none (some (TelnetRequest.Send d)) cr =
      ⟨none, [], [TelnetEvent.Error "Connection is closed"], false⟩) ∧
    (∀ a p s', handle_request none (some (TelnetRequest.Connect a p)) (some s') =
      ⟨some s', [],
        [TelnetEvent.Info ("Connecting to " ++ a ++ ":" ++ toString p ++ "..."),
         TelnetEvent.Info "Connected."], false⟩) := by
  refine ⟨?_, fun d cr => rfl, fun a p s' => rfl⟩
  have hx : handle_telnet_recv_impl (some s) res =
      ((handle_telnet_recv_impl (some s) res).1, some err) := by
    rw [← herr]
  rw [handle_telnet_recv, hx]

/-- C8 witness: a raw I/O failure (`read_timeout` error) on socket 0. -/
theorem C8_witness :
    (handle_telnet_recv_impl (some 0) ReadResult.ioError).2 =
      some "Read from socket" ∧
    (handle_telnet_recv (some 0) ReadResult.ioError =
      (none, (handle_telnet_recv_impl (some 0) ReadResult.ioError).1 ++
        [TelnetEvent.Error "Read from socket",
         TelnetEvent.Warning "Disconnected."]) ∧
    (∀ d cr, handle_request none (some (TelnetRequest.Send d)) cr =
      ⟨none, [], [TelnetEvent.Error "Connection is closed"], false⟩) ∧
    (∀ a p s', handle_request none (some (TelnetRequest.Connect a p)) (some s') =
      ⟨some s', [],
        [TelnetEvent.Info ("Connecting to " ++ a ++ ":" ++ toString p ++ "..."),
         TelnetEvent.Info "Connected."], false⟩)) :=
  ⟨rfl, C8_failure_teardown_and_recovery 0 ReadResult.ioError "Read from socket" rfl⟩

/-- C9: whenever a presentation event makes `handle_tui_event` report loop
exit (`quit = true`), the shutdown request to the connection actor and
the shutdown request to the automation actor are both among the requests
issued by that same call, so the router never exits its loop with either
unsent. -/
theorem C9_quit_sends_both_shutdowns (ev : TuiEvent)
    (h : (handle_tui_event ev).quit = true) :
    TelnetRequest.Shutdown ∈ (handle_tui_event ev).telnet ∧
    ScriptEngineRequest.Shutdown ∈ (handle_tui_event ev).script := by
  cases ev with
  | Send d => exact absurd h (by simp [handle_tui_event])
  | SendSecret d => exact absurd h (by simp [handle_tui_event])
  | Quit =>
    exact ⟨List.mem_singleton.mpr rfl, List.mem_singleton.mpr rfl⟩

/-- C9 witness: the quit event itself. -/
theorem C9_witness :
    (handle_tui_event TuiEvent.Quit).quit = true ∧
    (TelnetRequest.Shutdown ∈ (handle_tui_event TuiEvent.Quit).telnet ∧
     ScriptEngineRequest.Shutdown ∈ (handle_tui_event TuiEvent.Quit).script) :=
  ⟨rfl, C9_quit_sends_both_shutdowns TuiEvent.Quit rfl⟩

/-- C10: a Connect handled while already connected whose attempt succeeds
silently replaces the socket: the outcome keeps the actor connected to
the new socket, emits only the "Connecting..." and "Connected."
informational events — in particular no warning event of any kind —
writes nothing, and does not stop the loop. -/
theorem C10_reconnect_replaces_socket (oldSock newSock : Nat)
    (address : String) (port : Nat) :
    handle_request (some oldSock) (some (TelnetRequest.Connect address port))
        (some newSock) =
      ⟨some newSock, [],
        [TelnetEvent.Info ("Connecting to " ++ address ++ ":" ++ toString port ++ "..."),
         TelnetEvent.Info "Connected."], false⟩ ∧
    ∀ w, TelnetEvent.Warning w ∉
      (handle_request (some oldSock) (some (TelnetRequest.Connect address port))
        (some newSock)).events := by
  refine ⟨rfl, ?_⟩
  intro w hw
  rw [show handle_request (some oldSock) (some (TelnetRequest.Connect address port))
      (some newSock) =
      ⟨some newSock, [],
        [TelnetEvent.Info ("Connecting to " ++ address ++ ":" ++ toString port ++ "..."),
         TelnetEvent.Info "Connected."], false⟩ from rfl] at hw
  simp only [List.mem_cons, List.mem_singleton] at hw
  rcases hw with hw | hw | hw
  · cases hw
  · cases hw
  · cases hw

/-- C10 witness: replacing socket 1 by socket 2 while connecting to
mud.example.org:4000. -/
theorem C10_witness :
    handle_request (some 1) (some (TelnetRequest.Connect "mud.example.org" 4000))
        (some 2) =
      ⟨some 2, [],
        [TelnetEvent.Info ("Connecting to " ++ "mud.example.org" ++ ":" ++
          toString (4000 : Nat) ++ "..."),
         TelnetEvent.Info "Connected."], false⟩ ∧
    ∀ w, TelnetEvent.Warning w ∉
      (handle_request (some 1) (some (TelnetRequest.Connect "mud.example.org" 4000))
        (some 2)).events :=
  C10_reconnect_replaces_socket 1 2 "mud.example.org" 4000

end Draugr
